import Mathlib

/-!
Verification of the version-resolution, download, and installation logic of
`install-unity.py` (a macOS Unity installer script), via a shallow embedding.

The embedding follows the source closely:
* `parse_version` embeds the Python function of the same name, including the
  behaviour of the regular expression
  `^(\d+)?(?:\.(\d+)(?:\.(\d+))?)?(?:(\w)(?:(\d+))?)?$` (`VERSION_RE`).
  The regex is deterministic under leftmost-greedy matching (each `(\d+)`
  group is followed by a non-digit context), so it is embedded as a
  committed recursive-descent scanner `reMatchVersion`.
* `compare_versions` embeds Python 2 `cmp` on the 5-element parsed lists,
  where `None` compares below every integer.
* `input_matches_version`, `select_version`, `version_string`,
  `get_baseurl`, `remove`, `get_sorted_versions`, `download_url`,
  `install`, and `clean_up` embed their namesakes.
Fatal `error(...)` calls (which `sys.exit`) and uncaught Python exceptions
are modelled as `none` / `Except.error`.
-/

/-! ### Generic three-way comparators (Python 2 `cmp`) -/

/-- Python 2 `cmp` on integers, restricted to naturals. -/
def cmpN (a b : Nat) : Ordering :=
  if a < b then .lt else if b < a then .gt else .eq

/-- Python 2 `cmp` lifted to optional values: `None` is below every value. -/
def cmpOpt (g : α → α → Ordering) : Option α → Option α → Ordering
  | none, none => .eq
  | none, some _ => .lt
  | some _, none => .gt
  | some a, some b => g a b

/-- Python 2 `cmp` on `None`-or-integer values. -/
def cmpO : Option Nat → Option Nat → Ordering := cmpOpt cmpN

/-- Lexicographic pairing of comparators, as Python 2 list `cmp` does
elementwise. -/
def cmpProd (g : α → α → Ordering) (h : β → β → Ordering)
    (x y : α × β) : Ordering :=
  (g x.1 y.1).then (h x.2 y.2)

/-- A comparator that decides equality, is antisymmetric under `swap`, and
has a transitive strict part (the properties Python 2 `cmp` has on
integers and on lists of them). -/
def IsLawfulCmp (f : α → α → Ordering) : Prop :=
  (∀ a b, f a b = Ordering.eq ↔ a = b) ∧
  (∀ a b, (f a b).swap = f b a) ∧
  (∀ a b c, f a b = Ordering.lt → f b c = Ordering.lt → f a c = Ordering.lt)

theorem then_eq_eq {o p : Ordering} : o.then p = .eq ↔ o = .eq ∧ p = .eq := by
  cases o <;> simp [Ordering.then]

theorem then_eq_lt {o p : Ordering} :
    o.then p = .lt ↔ o = .lt ∨ (o = .eq ∧ p = .lt) := by
  cases o <;> simp [Ordering.then]

theorem then_swap {o p : Ordering} : (o.then p).swap = o.swap.then p.swap := by
  cases o <;> cases p <;> rfl

theorem cmpN_eq_lt {a b : Nat} : cmpN a b = .lt ↔ a < b := by
  unfold cmpN
  split
  · exact iff_of_true rfl (by assumption)
  · split <;> simp <;> omega

theorem cmpN_eq_gt {a b : Nat} : cmpN a b = .gt ↔ b < a := by
  unfold cmpN
  split
  · simp; omega
  · split
    · exact iff_of_true rfl (by assumption)
    · simp; omega

theorem cmpN_lawful : IsLawfulCmp cmpN := by
  refine ⟨?_, ?_, ?_⟩
  · intro a b; unfold cmpN
    split
    · simp; omega
    · split
      · simp; omega
      · simp; omega
  · intro a b
    rcases Nat.lt_trichotomy a b with h | h | h
    · rw [cmpN_eq_lt.mpr h, cmpN_eq_gt.mpr h]; rfl
    · subst h; simp [cmpN]; rfl
    · rw [cmpN_eq_gt.mpr h, cmpN_eq_lt.mpr h]; rfl
  · intro a b c hab hbc
    rw [cmpN_eq_lt] at hab hbc ⊢
    omega

theorem cmpOpt_lawful {g : α → α → Ordering} (hg : IsLawfulCmp g) :
    IsLawfulCmp (cmpOpt g) := by
  obtain ⟨he, hs, ht⟩ := hg
  refine ⟨?_, ?_, ?_⟩
  · rintro (_ | a) (_ | b) <;> simp [cmpOpt, he]
  · rintro (_ | a) (_ | b)
    · rfl
    · rfl
    · rfl
    · exact hs a b
  · rintro (_ | a) (_ | b) (_ | c) h1 h2 <;>
      first
      | rfl
      | exact ht _ _ _ h1 h2
      | simp [cmpOpt] at h1 h2

theorem cmpProd_lawful {g : α → α → Ordering} {h : β → β → Ordering}
    (hg : IsLawfulCmp g) (hh : IsLawfulCmp h) :
    IsLawfulCmp (cmpProd g h) := by
  obtain ⟨ge, gs, gt⟩ := hg
  obtain ⟨he', hs', ht'⟩ := hh
  refine ⟨?_, ?_, ?_⟩
  · rintro ⟨a1, a2⟩ ⟨b1, b2⟩
    simp [cmpProd, then_eq_eq, ge, he', Prod.ext_iff]
  · rintro ⟨a1, a2⟩ ⟨b1, b2⟩
    simp only [cmpProd, then_swap, gs, hs']
  · rintro ⟨a1, a2⟩ ⟨b1, b2⟩ ⟨c1, c2⟩ h1 h2
    simp only [cmpProd, then_eq_lt] at h1 h2 ⊢
    rcases h1 with h1 | ⟨h1e, h1l⟩ <;> rcases h2 with h2 | ⟨h2e, h2l⟩
    · exact Or.inl (gt _ _ _ h1 h2)
    · exact Or.inl ((ge _ _).mp h2e ▸ h1)
    · exact Or.inl (((ge _ _).mp h1e) ▸ h2)
    · refine Or.inr ⟨(ge _ _).mpr ?_, ht' _ _ _ h1l h2l⟩
      rw [(ge _ _).mp h1e, (ge _ _).mp h2e]

theorem cmpO_lawful : IsLawfulCmp cmpO := cmpOpt_lawful cmpN_lawful

/-! ### Decimal digits -/

/-- Numeric value of an ASCII digit character (Python `int` per char). -/
def digitVal (c : Char) : Nat := c.toNat - 48

/-- Python `int` applied to a string of decimal digits. -/
def digitsToNat (l : List Char) : Nat :=
  l.foldl (fun a c => a * 10 + digitVal c) 0

/-- Split a maximal run of leading decimal digits, as a greedy `(\d+)`
regex group does. -/
def takeDigits : List Char → List Char × List Char
  | [] => ([], [])
  | c :: cs =>
    if c.isDigit then
      let p := takeDigits cs
      (c :: p.1, p.2)
    else ([], c :: cs)

/-- Python `str` of a natural number, fuel-based so terms reduce
definitionally; `natDigits` below always supplies enough fuel. -/
def natDigitsAux : Nat → Nat → List Char
  | 0, _ => []
  | fuel + 1, n =>
    if n < 10 then [Char.ofNat (48 + n)]
    else natDigitsAux fuel (n / 10) ++ [Char.ofNat (48 + n % 10)]

/-- Python `str` of a natural number (decimal digits, big-endian). -/
def natDigits (n : Nat) : List Char := natDigitsAux (n + 1) n

theorem natDigitsAux_congr :
    ∀ f1 f2 n, n < f1 → n < f2 → natDigitsAux f1 n = natDigitsAux f2 n := by
  intro f1
  induction f1 with
  | zero => intro f2 n h1; omega
  | succ f ih =>
    intro f2 n h1 h2
    cases f2 with
    | zero => omega
    | succ f2' =>
      show natDigitsAux (f + 1) n = natDigitsAux (f2' + 1) n
      rw [natDigitsAux, natDigitsAux]
      by_cases h : n < 10
      · simp [h]
      · simp only [if_neg h]
        have hd : n / 10 < n := Nat.div_lt_self (by omega) (by omega)
        rw [ih f2' (n / 10) (by omega) (by omega)]

/-- The defining recurrence of `natDigits`. -/
theorem natDigits_eq (n : Nat) : natDigits n =
    if n < 10 then [Char.ofNat (48 + n)]
    else natDigits (n / 10) ++ [Char.ofNat (48 + n % 10)] := by
  show natDigitsAux (n + 1) n = _
  rw [natDigitsAux]
  by_cases h : n < 10
  · simp [h]
  · simp only [if_neg h]
    have hd : n / 10 < n := Nat.div_lt_self (by omega) (by omega)
    rw [natDigitsAux_congr n (n / 10 + 1) (n / 10) (by omega) (by omega)]
    rfl

/-! ### The version regular expression -/

/-- Python 2 `\w` on ASCII strings: letters, digits and underscore. -/
def isWordChar (c : Char) : Bool := c.isAlphanum || c = '_'

/-- Python `str.lower()` (ASCII). -/
def strLower (s : String) : String := ⟨s.data.map Char.toLower⟩

/-- Python `str.endswith(suf)`. -/
def strEndsWith (s suf : String) : Bool :=
  (s.data.reverse.take suf.data.length) == suf.data.reverse

/-- Python `str.startswith(pre)`. -/
def strStartsWith (s pre : String) : Bool :=
  (s.data.take pre.data.length) == pre.data

/-- The five capture groups of `VERSION_RE`
`^(\d+)?(?:\.(\d+)(?:\.(\d+))?)?(?:(\w)(?:(\d+))?)?$`, with the numeric
groups already converted by Python `int` (as `parse_version` does). -/
structure ReGroups where
  major : Option Nat
  minor : Option Nat
  patch : Option Nat
  letter : Option Char
  stageNum : Option Nat
deriving DecidableEq, Repr

/-- Matcher for the suffix `(?:(\w)(?:(\d+))?)?$` of `VERSION_RE`. -/
def reTail (r : List Char) : Option (Option Char × Option Nat) :=
  match r with
  | [] => some (none, none)
  | c :: rest =>
    if isWordChar c then
      let p := takeDigits rest
      if p.2.isEmpty then
        some (some c, if p.1.isEmpty then none else some (digitsToNat p.1))
      else none
    else none

/-- Matcher for `VERSION_RE` (see the header comment on determinism). -/
def reMatchVersion (s : List Char) : Option ReGroups :=
  let pm := takeDigits s
  let major : Option Nat :=
    if pm.1.isEmpty then none else some (digitsToNat pm.1)
  match pm.2 with
  | '.' :: r1 =>
    let pmi := takeDigits r1
    if pmi.1.isEmpty then none
    else
      match pmi.2 with
      | '.' :: r3 =>
        let pp := takeDigits r3
        if pp.1.isEmpty then none
        else
          (reTail pp.2).map fun t =>
            ⟨major, some (digitsToNat pmi.1), some (digitsToNat pp.1),
              t.1, t.2⟩
      | r2 =>
        (reTail r2).map fun t =>
          ⟨major, some (digitsToNat pmi.1), none, t.1, t.2⟩
  | r0 => (reTail r0).map fun t => ⟨major, none, none, t.1, t.2⟩

/-! ### parse_version / version_string / compare_versions -/

/-- `RELEASE_LETTER_STRENGTH = { 'f': 1, 'p': 2, 'b': 3, 'a': 4 }`. -/
def releaseLetterStrength (c : Char) : Option Nat :=
  if c = 'f' then some 1
  else if c = 'p' then some 2
  else if c = 'b' then some 3
  else if c = 'a' then some 4
  else none

/-- The parsed 5-element list `[major, minor, patch, strength, stagenum]`
returned by `parse_version`; after a successful parse `stage` is always
`some` (the release-letter strength, defaulting to `f` = 1). -/
structure VersionTuple where
  major : Option Nat
  minor : Option Nat
  patch : Option Nat
  stage : Option Nat
  stageNum : Option Nat
deriving DecidableEq, Repr

/-- `parse_version`: match `VERSION_RE`, convert numeric groups, map the
release letter through `RELEASE_LETTER_STRENGTH` (unknown letters are a
fatal error, modelled as `none`), default the stage to `f` (strength 1). -/
def parse_version (s : String) : Option VersionTuple :=
  match reMatchVersion s.data with
  | none => none
  | some g =>
    match g.letter with
    | some c =>
      (releaseLetterStrength c).map fun st =>
        ⟨g.major, g.minor, g.patch, some st, g.stageNum⟩
    | none => some ⟨g.major, g.minor, g.patch, some 1, g.stageNum⟩

/-- Reverse lookup in `RELEASE_LETTER_STRENGTH` as `version_string` does;
a strength outside 1..4 hits an empty list (IndexError), modelled `none`. -/
def strengthLetter (n : Nat) : Option Char :=
  if n = 1 then some 'f'
  else if n = 2 then some 'p'
  else if n = 3 then some 'b'
  else if n = 4 then some 'a'
  else none

/-- A numeric field rendered by `version_string`: `None` renders as x. -/
def fieldChars : Option Nat → List Char
  | none => ['x']
  | some n => natDigits n

/-- `version_string`: render the tuple as `'%s.%s.%s%s%s'`, with unset
fields as x and the stage strength mapped back to its letter. -/
def version_string (t : VersionTuple) : Option String :=
  match t.stage with
  | some st =>
    (strengthLetter st).map fun c =>
      ⟨fieldChars t.major ++ '.' :: fieldChars t.minor ++
        '.' :: fieldChars t.patch ++ c :: fieldChars t.stageNum⟩
  | none =>
    some ⟨fieldChars t.major ++ '.' :: fieldChars t.minor ++
      '.' :: fieldChars t.patch ++ 'x' :: fieldChars t.stageNum⟩

/-- Python 2 `cmp` on the parsed 5-element lists: lexicographic with
`None` below every integer. -/
def cmpT (t u : VersionTuple) : Ordering :=
  (cmpO t.major u.major).then ((cmpO t.minor u.minor).then
    ((cmpO t.patch u.patch).then ((cmpO t.stage u.stage).then
      (cmpO t.stageNum u.stageNum))))

/-- `compare_versions`: `cmp(parse_version(one), parse_version(two))`;
a parse failure aborts the run (`none`). -/
def compare_versions (a b : String) : Option Ordering :=
  match parse_version a, parse_version b with
  | some ta, some tb => some (cmpT ta tb)
  | _, _ => none

/-! ### input_matches_version / select_version -/

/-- One numeric field of the matching loop in `input_matches_version`:
skipped when either side is `None`, otherwise equality is required. -/
def numFieldMatches : Option Nat → Option Nat → Bool
  | some a, some b => a == b
  | _, _ => true

/-- The stage field (index 3) of the matching loop: skipped when either
side is `None`, otherwise the candidate must not be strictly stronger
(`input_version[3] < match_with[3]` returns `False`). -/
def stageFieldMatches : Option Nat → Option Nat → Bool
  | some a, some b => !(a < b : Bool)
  | _, _ => true

/-- `input_matches_version(input_version, match_with)`. -/
def input_matches_version (inp mw : VersionTuple) : Bool :=
  numFieldMatches inp.major mw.major &&
  numFieldMatches inp.minor mw.minor &&
  numFieldMatches inp.patch mw.patch &&
  stageFieldMatches inp.stage mw.stage &&
  numFieldMatches inp.stageNum mw.stageNum

/-- The scan of `select_version` over candidates from highest to lowest:
the pool is traversed in reverse; a candidate that fails to parse aborts
the run (`none`), exhausting the pool is the fatal no-match error. -/
def selectScan (inp : VersionTuple) : List String → Option String
  | [] => none
  | c :: rest =>
    match parse_version c with
    | none => none
    | some mw =>
      if input_matches_version inp mw then some c else selectScan inp rest

/-- `select_version(version, sorted_versions)`: parse the input, scan the
(ascending-sorted) pool from its end, return the first match. -/
def select_version (version : String) (sorted_versions : List String) :
    Option String :=
  match parse_version version with
  | none => none
  | some inp => selectScan inp sorted_versions.reverse

/-! ### The versions cache (`version_cache`) -/

/-- Python dict lookup on an association list. -/
def alookup (k : String) (l : List (String × α)) : Option α :=
  (l.find? fun e => e.1 == k).map (·.2)

/-- The JSON-backed cache dictionary `self.cache`.  Each partition is
`some` exactly when the corresponding key is present in the dict; the
values map version strings to base URLs. -/
structure Catalog where
  discovered : Option (List (String × String))
  release : Option (List (String × String))
  patch : Option (List (String × String))
  beta : Option (List (String × String))
deriving DecidableEq, Repr

/-- The catalog produced by `load()` when no cache file exists:
`self.cache` stays `{}` (no partition keys at all). -/
def emptyCatalog : Catalog := ⟨none, none, none, none⟩

/-- `get_baseurl(version)`: the `discovered` partition is membership-tested
(`'discovered' in self.cache and version in ...`), but the
`release`/`patch`/`beta` partitions are indexed unconditionally, so a
missing partition key raises `KeyError` (modelled as `Except.error`). -/
def get_baseurl (c : Catalog) (v : String) : Except String (Option String) :=
  match c.discovered.bind (alookup v) with
  | some url => .ok (some url)
  | none =>
    match c.release with
    | none => .error "KeyError: release"
    | some rel =>
      match alookup v rel with
      | some url => .ok (some url)
      | none =>
        match c.patch with
        | none => .error "KeyError: patch"
        | some pa =>
          match alookup v pa with
          | some url => .ok (some url)
          | none =>
            match c.beta with
            | none => .error "KeyError: beta"
            | some be =>
              match alookup v be with
              | some url => .ok (some url)
              | none => .ok none

/-- Remove the first binding of a key from an association list
(Python `del d[k]`; version keys are unique within a dict). -/
def aerase (k : String) (l : List (String × String)) :
    List (String × String) :=
  l.filter fun e => !(e.1 == k)

/-- `version_cache.remove(version)`: when the version is absent from the
`discovered` partition the warning `print` interpolates the undefined
name `versions`, raising `NameError` (modelled as `Except.error`);
when present, the entry is deleted and `True` is returned. -/
def cache_remove (c : Catalog) (v : String) :
    Except String (Catalog × Bool) :=
  match c.discovered with
  | none => .error "NameError: versions is not defined"
  | some d =>
    if (alookup v d).isSome then
      .ok ({ c with discovered := some (aerase v d) }, true)
    else .error "NameError: versions is not defined"

/-- The keys of one optional partition (absent partition contributes
nothing, as the `if key in self.cache` guards do). -/
def partitionKeys (o : Option (List (String × String))) : List String :=
  (o.getD []).map Prod.fst

/-- The unsorted union of all partitions' keys with metadata keys
(`_lastupdate` etc.) filtered out, as built by `get_sorted_versions`. -/
def catalogVersions (c : Catalog) : List String :=
  (partitionKeys c.discovered ++ partitionKeys c.release ++
    partitionKeys c.patch ++ partitionKeys c.beta).filter
    fun s => !(strStartsWith s "_")

/-- The sort key used by `sorted(all_versions, compare_versions)`.
On keys where both parses succeed this is exactly `compare_versions`
(Python aborts the whole sort if any comparison fails to parse). -/
def verCmp (a b : String) : Ordering :=
  cmpOpt cmpT (parse_version a) (parse_version b)

/-- The non-strict comparator relation induced by `verCmp`. -/
def verLe (a b : String) : Prop := verCmp a b ≠ Ordering.gt

instance : DecidableRel verLe := fun a b => by
  unfold verLe; infer_instance

/-- `version_cache.get_sorted_versions()`: all partition keys, metadata
keys removed, sorted ascending by `compare_versions`. -/
def get_sorted_versions (c : Catalog) : List String :=
  List.insertionSort verLe (catalogVersions c)

/-! ### The downloader (`download_url`) -/

/-- `DOWNLOAD_MAX_RETRIES`. -/
def DOWNLOAD_MAX_RETRIES : Nat := 3

/-- `DOWNLOAD_RETRY_WAIT` (seconds). -/
def DOWNLOAD_RETRY_WAIT : Nat := 10

/-- Outcome of one `download_url` call. -/
inductive DlResult where
  /-- Existing file already has the expected size: skip, return. -/
  | skipped
  /-- Existing file is bigger than expected: warn, return. -/
  | tooBig
  /-- The loop broke with the file at `finalSize` bytes. -/
  | completed (finalSize : Nat)
  /-- Retry budget exceeded: fatal `error(...)` (DownloadError). -/
  | fatal
deriving DecidableEq, Repr

/-- Observable trace of a `download_url` call: the `Range` header offset
of every HTTP request issued (`none` = no `Range` header), every
`time.sleep` duration, and the outcome. -/
structure DlTrace where
  requests : List (Option Nat)
  waits : List Nat
  result : DlResult
deriving DecidableEq, Repr

/-- `download_url(url, output, expected_size)` with the network abstracted
as one received byte count per attempt (`resp`; a missing entry receives
0 bytes, i.e. the connection dropped immediately).  `fileExists`/`size`
describe the on-disk state of `output`; after the first attempt the file
exists and holds the accumulated bytes (opened in append mode). -/
def download_url (expected : Nat) (fileExists : Bool) (size retries : Nat)
    (resp : List Nat) : DlTrace :=
  if fileExists ∧ size = expected then ⟨[], [], .skipped⟩
  else if fileExists ∧ expected < size then ⟨[], [], .tooBig⟩
  else
    let existing := if fileExists then size else 0
    let rangeHdr : Option Nat := if 0 < existing then some existing else none
    let newSize := existing + resp.headD 0
    if newSize < expected then
      if h : DOWNLOAD_MAX_RETRIES < retries + 1 then
        ⟨[rangeHdr], [], .fatal⟩
      else
        let t := download_url expected true newSize (retries + 1) resp.tail
        ⟨rangeHdr :: t.requests, DOWNLOAD_RETRY_WAIT :: t.waits, t.result⟩
    else ⟨[rangeHdr], [], .completed newSize⟩
  termination_by DOWNLOAD_MAX_RETRIES + 1 - retries
  decreasing_by simp only [DOWNLOAD_MAX_RETRIES] at *; omega

/-! ### The installer (`install`) -/

/-- The Applications directory on the target volume, as a map from
directory basename to an opaque content identity. -/
abbrev FS := List (String × Nat)

/-- Result of a call to `install`. -/
inductive InstallResult where
  /-- An uncaught `NameError`: a module-global lookup of a name that
  exists only as a local of `main()`.  `fs` is the Applications
  directory at the moment of the raise and `invoked` the installer
  invocations made before it. -/
  | nameError (missingName : String) (fs : FS) (invoked : List String)
deriving DecidableEq, Repr

/-- `install(version, path, selected)` as the program executes it.
`config` (assigned inside `main()`, line 909) and `installs` (line 879)
are locals of `main()`: there is no `global` declaration for them and no
module-level binding, so the global name lookups in `install` raise
`NameError` at the first statement that touches them — with a non-empty
selection, `config.get(pkg, 'url')` in the missing-download check
(line 686); with an empty selection, `version in installs` in the
precondition at line 694.  The error is raised before any precondition
check completes, before any directory is renamed, and before any
installer is invoked, so the Applications directory `fs0` is untouched
and no package is processed.  (`selected` is the list of selected
package section names.) -/
def install (version : String) (selected : List String) (fs0 : FS) :
    InstallResult :=
  match version, selected with
  | _, _ :: _ => .nameError "config" fs0 []
  | _, [] => .nameError "installs" fs0 []

/-! ### clean_up -/

/-- Result of `clean_up(path)`. -/
inductive CleanupResult where
  /-- An unexpected file was found: warn, delete nothing. -/
  | aborted (offender : String)
  /-- Every entry was recognized: `shutil.rmtree(path)` removed the
  per-version download directory.  The next statement (line 771) then
  reads `download_to`, a local of `main()` with no `global` declaration
  and no module-level binding, so it raises `NameError` and the
  downloads root is never inspected or removed. -/
  | removedVersionDir
deriving DecidableEq, Repr

/-- The guard loop of `clean_up`: the first entry that is neither a
`.pkg` file (case-insensitively) nor exactly `.DS_Store`. -/
def firstUnexpected : List String → Option String
  | [] => none
  | f :: rest =>
    if !(strEndsWith (strLower f) ".pkg") && !(f == ".DS_Store") then some f
    else firstUnexpected rest

/-- `clean_up(path)` over the directory listing of the per-version
download directory: abort with a warning at the first unexpected entry,
otherwise remove the per-version directory (after which the `NameError`
on `download_to` stops the function before the downloads-root check). -/
def clean_up (pathListing : List String) : CleanupResult :=
  match firstUnexpected pathListing with
  | some f => .aborted f
  | none => .removedVersionDir

/-! ### Lawfulness of the version comparison -/

/-- The parsed tuple flattened to the nested pairs `cmpT` compares. -/
def flatT (t : VersionTuple) :
    Option Nat × Option Nat × Option Nat × Option Nat × Option Nat :=
  (t.major, t.minor, t.patch, t.stage, t.stageNum)

/-- The 5-way lexicographic comparator on flattened tuples. -/
def cmp5 :
    Option Nat × Option Nat × Option Nat × Option Nat × Option Nat →
    Option Nat × Option Nat × Option Nat × Option Nat × Option Nat →
    Ordering :=
  cmpProd cmpO (cmpProd cmpO (cmpProd cmpO (cmpProd cmpO cmpO)))

theorem cmpT_eq_cmp5 (t u : VersionTuple) :
    cmpT t u = cmp5 (flatT t) (flatT u) := rfl

theorem cmp5_lawful : IsLawfulCmp cmp5 :=
  cmpProd_lawful cmpO_lawful (cmpProd_lawful cmpO_lawful
    (cmpProd_lawful cmpO_lawful (cmpProd_lawful cmpO_lawful cmpO_lawful)))

theorem flatT_inj {t u : VersionTuple} (h : flatT t = flatT u) : t = u := by
  cases t; cases u
  simpa [flatT, Prod.ext_iff, VersionTuple.mk.injEq, and_assoc] using h

theorem cmpT_eq_iff {t u : VersionTuple} : cmpT t u = .eq ↔ t = u := by
  rw [cmpT_eq_cmp5, cmp5_lawful.1]
  exact ⟨flatT_inj, fun h => by rw [h]⟩

theorem cmpT_swap (t u : VersionTuple) : (cmpT t u).swap = cmpT u t := by
  rw [cmpT_eq_cmp5, cmpT_eq_cmp5]
  exact cmp5_lawful.2.1 _ _

theorem cmpT_lt_trans {t u v : VersionTuple} (h1 : cmpT t u = .lt)
    (h2 : cmpT u v = .lt) : cmpT t v = .lt := by
  rw [cmpT_eq_cmp5] at h1 h2 ⊢
  exact cmp5_lawful.2.2 _ _ _ h1 h2

theorem cmpT_lawful : IsLawfulCmp cmpT :=
  ⟨fun _ _ => cmpT_eq_iff, cmpT_swap, fun _ _ _ => cmpT_lt_trans⟩

theorem verCmp_swap (a b : String) : (verCmp a b).swap = verCmp b a :=
  (cmpOpt_lawful cmpT_lawful).2.1 _ _

theorem verCmp_lt_trans {a b c : String} (h1 : verCmp a b = .lt)
    (h2 : verCmp b c = .lt) : verCmp a c = .lt :=
  (cmpOpt_lawful cmpT_lawful).2.2 _ _ _ h1 h2

theorem verCmp_eq_iff {a b : String} :
    verCmp a b = .eq ↔ parse_version a = parse_version b :=
  (cmpOpt_lawful cmpT_lawful).1 _ _

instance : IsTotal String verLe where
  total a b := by
    by_cases h : verCmp a b = .gt
    · right
      have hs := verCmp_swap a b
      rw [h] at hs
      unfold verLe
      rw [← hs]
      simp [Ordering.swap]
    · exact Or.inl h

instance : IsTrans String verLe where
  trans a b c hab hbc := by
    unfold verLe at *
    cases h1 : verCmp a b with
    | gt => exact absurd h1 hab
    | eq =>
      have hk : parse_version a = parse_version b := verCmp_eq_iff.mp h1
      unfold verCmp at *
      rw [hk]
      exact hbc
    | lt =>
      cases h2 : verCmp b c with
      | gt => exact absurd h2 hbc
      | eq =>
        have hk : parse_version b = parse_version c := verCmp_eq_iff.mp h2
        unfold verCmp at *
        rw [← hk, h1]
        simp
      | lt =>
        rw [verCmp_lt_trans h1 h2]
        simp

theorem cmpN_self (a : Nat) : cmpN a a = .eq := by
  unfold cmpN; simp

/-! ### Claim theorems -/

/-- C6: on valid version strings, `compare_versions` is computed
lexicographically over the parsed 5-tuple (with unset fields lowest, as
the last conjunct shows), is the exact inverse of its flip (`lt` ↔ `gt`,
`eq` ↔ `eq`), and is transitive. -/
theorem compare_order_props (a b c : String) (ta tb tc : VersionTuple)
    (ha : parse_version a = some ta) (hb : parse_version b = some tb)
    (hc : parse_version c = some tc) :
    compare_versions a b = some ((cmpO ta.major tb.major).then
      ((cmpO ta.minor tb.minor).then ((cmpO ta.patch tb.patch).then
        ((cmpO ta.stage tb.stage).then (cmpO ta.stageNum tb.stageNum))))) ∧
    (∀ o, compare_versions a b = some o →
      compare_versions b a = some o.swap) ∧
    (compare_versions a b = some .lt → compare_versions b c = some .lt →
      compare_versions a c = some .lt) ∧
    (compare_versions a b = some .eq → compare_versions b c = some .eq →
      compare_versions a c = some .eq) ∧
    (∀ k, cmpO none (some k) = .lt) := by
  refine ⟨?_, ?_, ?_, ?_, fun k => rfl⟩
  · simp [compare_versions, ha, hb, cmpT]
  · intro o ho
    simp only [compare_versions, ha, hb, Option.some.injEq] at ho
    simp only [compare_versions, ha, hb, Option.some.injEq]
    rw [← ho, cmpT_swap ta tb]
  · intro h1 h2
    simp only [compare_versions, ha, hb, hc, Option.some.injEq] at h1 h2 ⊢
    exact cmpT_lt_trans h1 h2
  · intro h1 h2
    simp only [compare_versions, ha, hb, hc, Option.some.injEq] at h1 h2 ⊢
    rw [cmpT_eq_iff] at h1 h2 ⊢
    rw [h1, h2]

/-- Witness for C6 at concrete versions. -/
theorem compare_order_props_witness :
    compare_versions "5.3.0b1" "5.3.0f1" = some Ordering.gt :=
  (compare_order_props "5.3.0f1" "5.3.0b1" "5.3.1f1"
    ⟨some 5, some 3, some 0, some 1, some 1⟩
    ⟨some 5, some 3, some 0, some 3, some 1⟩
    ⟨some 5, some 3, some 1, some 1, some 1⟩
    (by decide) (by decide) (by decide)).2.1 Ordering.lt (by decide)

/-- In a `Pairwise`-ordered list, the relation holds between any earlier
and any later element. -/
theorem pairwise_of_split {α} {r : α → α → Prop} {x y : α}
    (pre mid post : List α)
    (h : (pre ++ x :: mid ++ y :: post).Pairwise r) : r x y := by
  induction pre with
  | nil =>
    simp only [List.nil_append, List.cons_append] at h
    exact (List.pairwise_cons.mp h).1 y
      (List.mem_append_right mid (List.mem_cons_self y post))
  | cons p ps ih =>
    simp only [List.cons_append] at h
    exact ih (List.pairwise_cons.mp h).2

/-- C10: two concrete versions agreeing on major/minor/patch are ordered
by stage strength (`f`=1 < `p`=2 < `b`=3 < `a`=4), so the weaker-stage
release compares `lt`; consequently `get_sorted_versions` can never place
the stronger-stage release before it. -/
theorem stage_strength_ordering (a b : String) (M m p s1 n1 s2 n2 : Nat)
    (ha : parse_version a = some ⟨some M, some m, some p, some s1, some n1⟩)
    (hb : parse_version b = some ⟨some M, some m, some p, some s2, some n2⟩)
    (hs : s1 < s2) :
    compare_versions a b = some Ordering.lt ∧
    ∀ (c : Catalog) (pre mid post : List String),
      get_sorted_versions c ≠ pre ++ b :: mid ++ a :: post := by
  have hcmp : cmpT ⟨some M, some m, some p, some s1, some n1⟩
      ⟨some M, some m, some p, some s2, some n2⟩ = .lt := by
    simp [cmpT, cmpO, cmpOpt, cmpN_self, cmpN_eq_lt.mpr hs, Ordering.then]
  constructor
  · simp [compare_versions, ha, hb, hcmp]
  · intro c pre mid post heq
    have hsorted : (get_sorted_versions c).Sorted verLe :=
      List.sorted_insertionSort verLe (catalogVersions c)
    rw [heq] at hsorted
    have hba : verLe b a := pairwise_of_split pre mid post hsorted
    apply hba
    have hlt : verCmp a b = .lt := by
      unfold verCmp
      rw [ha, hb]
      exact hcmp
    have hswap := verCmp_swap a b
    rw [hlt] at hswap
    exact hswap.symm

/-- Witness for C10: the spec example `compare("5.3.0f1","5.3.0b1")`. -/
theorem stage_strength_ordering_witness :
    compare_versions "5.3.0f1" "5.3.0b1" = some Ordering.lt :=
  (stage_strength_ordering "5.3.0f1" "5.3.0b1" 5 3 0 1 1 3 1
    (by decide) (by decide) (by decide)).1

/-- C1 counterexample: with the default (final) stage, the patch release
`5.3.2p1` has stage strength 2 > 1 and is excluded just like the beta, so
`select_version("5.3", ...)` returns the highest final release
`"5.3.1f1"`, not `"5.3.2p1"` as the claim states. -/
theorem select_default_stage_cex :
    select_version "5.3" ["5.3.0f1", "5.3.1f1", "5.3.2p1", "5.3.5b1"] =
      some "5.3.1f1" ∧
    select_version "5.3" ["5.3.0f1", "5.3.1f1", "5.3.2p1", "5.3.5b1"] ≠
      some "5.3.2p1" := by
  constructor
  · rfl
  · decide

/-- C1 (amended): an unspecified stage defaults to strength 1 (final); a
concrete candidate matches exactly when every non-wildcard numeric field
of the spec equals the candidate's and the candidate's stage strength is
at most the requested strength; consequently `select("5.3", ...)` on the
example pool returns `"5.3.1f1"` (both the patch release and the beta
exceed the default final strength and are excluded; the highest final
release wins). -/
theorem select_default_stage_amended :
    (∀ (s : String) (g : ReGroups), reMatchVersion s.data = some g →
      g.letter = none →
      parse_version s =
        some ⟨g.major, g.minor, g.patch, some 1, g.stageNum⟩) ∧
    (∀ (inp : VersionTuple) (M m p st n : Nat),
      input_matches_version inp ⟨some M, some m, some p, some st, some n⟩ =
        true ↔
      ((∀ x, inp.major = some x → x = M) ∧
       (∀ x, inp.minor = some x → x = m) ∧
       (∀ x, inp.patch = some x → x = p) ∧
       (∀ x, inp.stage = some x → st ≤ x) ∧
       (∀ x, inp.stageNum = some x → x = n))) ∧
    select_version "5.3" ["5.3.0f1", "5.3.1f1", "5.3.2p1", "5.3.5b1"] =
      some "5.3.1f1" := by
  refine ⟨?_, ?_, rfl⟩
  · intro s g hm hl
    simp [parse_version, hm, hl]
  · intro inp M m p st n
    obtain ⟨i1, i2, i3, i4, i5⟩ := inp
    cases i1 <;> cases i2 <;> cases i3 <;> cases i4 <;> cases i5 <;>
      simp [input_matches_version, numFieldMatches, stageFieldMatches,
        Nat.not_lt, and_assoc]

/-- Witness for C1 (amended): the default stage on `"5.3"`. -/
theorem select_default_stage_amended_witness :
    parse_version "5.3" = some ⟨some 5, some 3, none, some 1, none⟩ :=
  select_default_stage_amended.1 "5.3" ⟨some 5, some 3, none, none, none⟩
    (by decide) rfl

/-- C7 counterexample: the major group of `VERSION_RE` is `(\d+)?` —
optional — so `"b1"` (and even the empty string) is accepted by
`parse_version` with no major number at all. -/
theorem parse_no_major_cex :
    parse_version "b1" = some ⟨none, none, none, some 3, some 1⟩ ∧
    parse_version "" = some ⟨none, none, none, some 1, none⟩ := by
  constructor <;> rfl

/-- C7 (amended): `parse_version` fails exactly when the text does not
match `[major][.minor[.patch]][stageLetter[stageNumber]]` (every
component optional — strings without a major number are accepted) or the
stage letter is outside the fixed table `{f, p, b, a}`; in particular
`"5.3.2q1"` fails on the unknown letter `q`. -/
theorem parse_grammar_amended :
    (∀ s : String, parse_version s = none ↔
      (reMatchVersion s.data = none ∨
        ∃ g c, reMatchVersion s.data = some g ∧ g.letter = some c ∧
          releaseLetterStrength c = none)) ∧
    parse_version "5.3.2q1" = none := by
  refine ⟨?_, rfl⟩
  intro s
  unfold parse_version
  cases hm : reMatchVersion s.data with
  | none => simp
  | some g =>
    cases hl : g.letter with
    | none => simp [hl]
    | some c =>
      cases hr : releaseLetterStrength c with
      | none => simp [hl, hr]
      | some st => simp [hl, hr]

/-- Witness for C7 (amended) at a string rejected by the grammar. -/
theorem parse_grammar_amended_witness : parse_version "5..3" = none :=
  (parse_grammar_amended.1 "5..3").mpr (Or.inl (by decide))

/-- C8 is a code bug: `get_baseurl` guards only the `discovered`
partition with a membership test; on the empty catalog produced by
`load()` with no cache file it indexes the missing `release` key and
raises `KeyError` instead of returning `None`. -/
theorem get_baseurl_empty_catalog_raises :
    get_baseurl emptyCatalog "5.3.0f1" = .error "KeyError: release" ∧
    ∀ u, get_baseurl emptyCatalog "5.3.0f1" ≠ .ok u := by
  constructor
  · rfl
  · intro u h
    cases h

/-- C9 is a code bug: the warning `print` in `version_cache.remove`
interpolates the undefined name `versions`, so a `forget` of a version
absent from `discovered` raises `NameError` instead of warning and
returning `False`; a present version is removed and `True` returned. -/
theorem remove_absent_raises :
    cache_remove emptyCatalog "5.3.0f1" =
      .error "NameError: versions is not defined" ∧
    (∀ r, cache_remove emptyCatalog "5.3.0f1" ≠ .ok r) ∧
    cache_remove ⟨some [("5.3.0f1", "http://dl/")], none, none, none⟩
        "5.3.0f1" =
      .ok (⟨some [], none, none, none⟩, true) := by
  refine ⟨rfl, ?_, rfl⟩
  intro r h
  cases h

/-- The claim's notion of a recognized installer artifact: a package
file, the OS-generated `.DS_Store`, or a manifest cache file (named
`unity-VERSION-osx.ini`). -/
def recognizedArtifact (f : String) : Bool :=
  strEndsWith (strLower f) ".pkg" || f == ".DS_Store" ||
    (strStartsWith f "unity-" && strEndsWith f "-osx.ini")

theorem firstUnexpected_eq_none (l : List String) :
    firstUnexpected l = none ↔
      ∀ f ∈ l, (strEndsWith (strLower f) ".pkg" || f == ".DS_Store") = true := by
  induction l with
  | nil => simp [firstUnexpected]
  | cons f rest ih =>
    cases hb : (!(strEndsWith (strLower f) ".pkg") && !(f == ".DS_Store")) with
    | true =>
      have hx : strEndsWith (strLower f) ".pkg" = false ∧
          (f == ".DS_Store") = false := by
        simpa only [Bool.and_eq_true, Bool.not_eq_true'] using hb
      simp [firstUnexpected, hb]
      intro hc
      rcases hc with hc | hc
      · rw [hx.1] at hc; cases hc
      · subst hc; simp at hx
    | false =>
      have hor : (strEndsWith (strLower f) ".pkg" || f == ".DS_Store") =
          true := by
        cases hx : strEndsWith (strLower f) ".pkg" with
        | true => simp [hx]
        | false =>
          cases hy : (f == ".DS_Store") with
          | true => simp [hy]
          | false => rw [hx, hy] at hb; cases hb
      simp [firstUnexpected, hb, ih, hor]
      intro _
      simpa using hor

/-- C4: `clean_up` removes the download directory only when every listed
entry is a recognized installer artifact, and the presence of any
unrecognized entry makes it abort with a warning (deleting nothing). -/
theorem clean_up_guard (pathListing : List String) :
    ((∀ g, clean_up pathListing ≠ CleanupResult.aborted g) →
      ∀ f ∈ pathListing, recognizedArtifact f = true) ∧
    (∀ f ∈ pathListing, recognizedArtifact f = false →
      ∃ g, clean_up pathListing = CleanupResult.aborted g) := by
  constructor
  · intro hno f hf
    cases hfu : firstUnexpected pathListing with
    | some g => exact absurd (by simp [clean_up, hfu]) (hno g)
    | none =>
      have hcode := (firstUnexpected_eq_none _).mp hfu f hf
      unfold recognizedArtifact
      simp [hcode]
  · intro f hf hfr
    have hcode : (strEndsWith (strLower f) ".pkg" || f == ".DS_Store") = false := by
      unfold recognizedArtifact at hfr
      simp only [Bool.or_eq_false_iff] at hfr
      simp [hfr.1.1, hfr.1.2]
    cases hfu : firstUnexpected pathListing with
    | some g => exact ⟨g, by simp [clean_up, hfu]⟩
    | none =>
      have := (firstUnexpected_eq_none _).mp hfu f hf
      rw [hcode] at this
      cases this

/-- Witness for C4: a stray text file aborts the cleanup. -/
theorem clean_up_guard_witness :
    ∃ g, clean_up ["Unity.pkg", "secrets.txt"] =
      CleanupResult.aborted g :=
  (clean_up_guard ["Unity.pkg", "secrets.txt"]).2
    "secrets.txt" (by decide) (by decide)

theorem download_url_fail_step (M sz retries r : Nat) (resp : List Nat)
    (hszM : sz < M) (hpos : 0 < sz) (hfail : sz + r < M)
    (hretry : retries + 1 ≤ 3) :
    download_url M true sz retries (r :: resp) =
      ⟨some sz ::
        (download_url M true (sz + r) (retries + 1) resp).requests,
       10 :: (download_url M true (sz + r) (retries + 1) resp).waits,
       (download_url M true (sz + r) (retries + 1) resp).result⟩ := by
  have h1 : ¬(sz = M) := by omega
  have h2 : ¬(M < sz) := by omega
  have h4 : ¬(3 < retries + 1) := by omega
  conv_lhs => rw [download_url]
  simp [h1, h2, hpos, hfail, h4, DOWNLOAD_MAX_RETRIES, DOWNLOAD_RETRY_WAIT]

theorem download_url_fail_last (M sz r : Nat) (resp : List Nat)
    (hszM : sz < M) (hpos : 0 < sz) (hfail : sz + r < M) :
    download_url M true sz 3 (r :: resp) = ⟨[some sz], [], .fatal⟩ := by
  have h1 : ¬(sz = M) := by omega
  have h2 : ¬(M < sz) := by omega
  conv_lhs => rw [download_url]
  simp [h1, h2, hpos, hfail, DOWNLOAD_MAX_RETRIES]

/-- C2: size checks and resumption in `download_url`.  An on-disk file of
exactly the expected size is skipped with no request; a larger file
returns with a (non-fatal) warning and no request; a partial file of
`0 < N < M` bytes triggers a request whose `Range` header starts at `N`
with received bytes appended; and when every attempt leaves the file
short, the initial attempt plus three retries (each after a 10-second
wait, each resuming from the then-current size) exhaust the budget and
the call is fatal (DownloadError). -/
theorem download_url_resume_retry (M N K : Nat) (hN : 0 < N) (hNM : N < M)
    (hK : M < K) :
    (∀ resp, download_url M true M 0 resp = ⟨[], [], .skipped⟩) ∧
    (∀ resp, download_url M true K 0 resp = ⟨[], [], .tooBig⟩) ∧
    (∀ r resp, M ≤ N + r →
      download_url M true N 0 (r :: resp) =
        ⟨[some N], [], .completed (N + r)⟩) ∧
    (∀ r1 r2 r3 r4 resp, N + r1 + r2 + r3 + r4 < M →
      download_url M true N 0 (r1 :: r2 :: r3 :: r4 :: resp) =
        ⟨[some N, some (N + r1), some (N + r1 + r2),
          some (N + r1 + r2 + r3)], [10, 10, 10], .fatal⟩) := by
  refine ⟨?_, ?_, ?_, ?_⟩
  · intro resp
    rw [download_url]
    simp
  · intro resp
    have h1 : ¬(K = M) := by omega
    rw [download_url]
    simp [h1, hK]
  · intro r resp h
    have h1 : ¬(N = M) := by omega
    have h2 : ¬(M < N) := by omega
    have h3 : ¬(N + r < M) := by omega
    rw [download_url]
    simp [h1, h2, h3, hN]
  · intro r1 r2 r3 r4 resp h
    rw [download_url_fail_step M N 0 r1 _ (by omega) hN (by omega)
        (by omega),
      download_url_fail_step M (N + r1) 1 r2 _ (by omega) (by omega)
        (by omega) (by omega),
      download_url_fail_step M (N + r1 + r2) 2 r3 _ (by omega) (by omega)
        (by omega) (by omega),
      download_url_fail_last M (N + r1 + r2 + r3) r4 _ (by omega)
        (by omega) (by omega)]

/-- Witness for C2 at concrete sizes. -/
theorem download_url_resume_retry_witness :
    download_url 10 true 3 0 [1, 1, 1, 1] =
      ⟨[some 3, some 4, some 5, some 6], [10, 10, 10], .fatal⟩ :=
  (download_url_resume_retry 10 3 12 (by decide) (by decide)
    (by decide)).2.2.2 1 1 1 1 [] (by decide)

/-- C3 is a code bug: `install` reads `config` and `installs` as module
globals, but both exist only as locals of `main()`, so every call to
`install` raises `NameError` before any precondition check completes,
before any directory move, and before any installer invocation — the
Applications directory is returned untouched and no package is invoked.
The claimed stop-at-first-failure loop and the
rollback-before-`InstallError` sequence of lines 721-756 (clearly the
intent, per the spec's steps 5-7) are therefore unreachable. -/
theorem install_raises_name_error :
    (∀ (version p : String) (rest : List String) (fs0 : FS),
      install version (p :: rest) fs0 = .nameError "config" fs0 []) ∧
    (∀ (version : String) (fs0 : FS),
      install version [] fs0 = .nameError "installs" fs0 []) :=
  ⟨fun _ _ _ _ => rfl, fun _ _ => rfl⟩

theorem digitChar_spec (n : Nat) (h : n < 10) :
    (Char.ofNat (48 + n)).isDigit = true ∧
      digitVal (Char.ofNat (48 + n)) = n ∧
      Char.ofNat (48 + n) ≠ '.' := by
  interval_cases n <;> exact ⟨by decide, by decide, by decide⟩

theorem natDigits_digits (n : Nat) : ∀ c ∈ natDigits n, c.isDigit = true := by
  induction n using Nat.strong_induction_on with
  | _ n ih =>
    rw [natDigits_eq]
    split
    · intro c hc
      rw [List.mem_singleton] at hc
      subst hc
      exact (digitChar_spec n (by omega)).1
    · intro c hc
      rw [List.mem_append] at hc
      rcases hc with hc | hc
      · exact ih (n / 10) (Nat.div_lt_self (by omega) (by omega)) c hc
      · rw [List.mem_singleton] at hc
        subst hc
        exact (digitChar_spec (n % 10) (Nat.mod_lt _ (by omega))).1

theorem natDigits_ne_nil (n : Nat) : natDigits n ≠ [] := by
  rw [natDigits_eq]
  split
  · simp
  · simp

theorem digitsToNat_append_one (l : List Char) (c : Char) :
    digitsToNat (l ++ [c]) = digitsToNat l * 10 + digitVal c := by
  simp [digitsToNat, List.foldl_append, Nat.mul_comm]

theorem digitsToNat_natDigits (n : Nat) : digitsToNat (natDigits n) = n := by
  induction n using Nat.strong_induction_on with
  | _ n ih =>
    rw [natDigits_eq]
    split
    · simp [digitsToNat, (digitChar_spec n (by omega)).2.1]
    · rw [digitsToNat_append_one,
        ih (n / 10) (Nat.div_lt_self (by omega) (by omega)),
        (digitChar_spec (n % 10) (Nat.mod_lt _ (by omega))).2.1]
      omega

theorem takeDigits_split (d r : List Char)
    (hd : ∀ c ∈ d, c.isDigit = true)
    (hr : ∀ c, r.head? = some c → c.isDigit = false) :
    takeDigits (d ++ r) = (d, r) := by
  induction d with
  | nil =>
    cases r with
    | nil => rfl
    | cons c rest =>
      have hc := hr c rfl
      simp [takeDigits, hc]
  | cons c cs ih =>
    have hc := hd c (List.mem_cons_self c cs)
    simp only [List.cons_append, takeDigits, hc, if_true, List.append_eq]
    rw [ih fun x hx => hd x (List.mem_cons_of_mem c hx)]

theorem strengthLetter_inv (st : Nat) (c : Char)
    (h : strengthLetter st = some c) :
    releaseLetterStrength c = some st ∧ c.isDigit = false ∧
      isWordChar c = true ∧ c ≠ '.' := by
  unfold strengthLetter at h
  split_ifs at h with h1 h2 h3 h4
  · cases h; subst_vars; exact ⟨by decide, by decide, by decide, by decide⟩
  · cases h; subst_vars; exact ⟨by decide, by decide, by decide, by decide⟩
  · cases h; subst_vars; exact ⟨by decide, by decide, by decide, by decide⟩
  · cases h; subst_vars; exact ⟨by decide, by decide, by decide, by decide⟩

theorem cmpT_refl (t : VersionTuple) : cmpT t t = .eq := cmpT_eq_iff.mpr rfl

theorem reMatch_concrete (M m p n : Nat) (c : Char)
    (hcd : c.isDigit = false) (hcw : isWordChar c = true) :
    reMatchVersion (natDigits M ++ '.' :: (natDigits m ++
        '.' :: (natDigits p ++ c :: natDigits n))) =
      some ⟨some M, some m, some p, some c, some n⟩ := by
  have h1 := takeDigits_split (natDigits M)
    ('.' :: (natDigits m ++ '.' :: (natDigits p ++ c :: natDigits n)))
    (natDigits_digits M)
    (by intro x hx; cases hx; decide)
  have h2 := takeDigits_split (natDigits m)
    ('.' :: (natDigits p ++ c :: natDigits n)) (natDigits_digits m)
    (by intro x hx; cases hx; decide)
  have h3 := takeDigits_split (natDigits p) (c :: natDigits n)
    (natDigits_digits p)
    (by intro x hx; cases hx; exact hcd)
  have h4 : takeDigits (natDigits n) = (natDigits n, []) := by
    have := takeDigits_split (natDigits n) [] (natDigits_digits n)
      (by intro x hx; cases hx)
    simpa using this
  have hM := natDigits_ne_nil M
  have hm := natDigits_ne_nil m
  have hp := natDigits_ne_nil p
  have hn := natDigits_ne_nil n
  simp only [reMatchVersion, h1, reTail, h2, h3, h4, hcw, if_true,
    List.isEmpty_eq_true, hM, hm, hp, hn, if_false, List.isEmpty_nil,
    Option.map_some, digitsToNat_natDigits]
  simp [digitsToNat_natDigits, hM, hm, hp, hn]

theorem parse_roundtrip (M m p st n : Nat) (c : Char)
    (hc : strengthLetter st = some c) :
    parse_version ⟨natDigits M ++ '.' :: (natDigits m ++
        '.' :: (natDigits p ++ c :: natDigits n))⟩ =
      some ⟨some M, some m, some p, some st, some n⟩ := by
  obtain ⟨hrc, hcd, hcw, _⟩ := strengthLetter_inv st c hc
  unfold parse_version
  rw [show (String.mk (natDigits M ++ '.' :: (natDigits m ++
      '.' :: (natDigits p ++ c :: natDigits n)))).data =
      natDigits M ++ '.' :: (natDigits m ++
      '.' :: (natDigits p ++ c :: natDigits n)) from rfl]
  rw [reMatch_concrete M m p n c hcd hcw]
  simp [hrc]

theorem parse_stage_sound (s : String) (t : VersionTuple)
    (h : parse_version s = some t) :
    ∃ st, t.stage = some st ∧ ∃ c, strengthLetter st = some c := by
  unfold parse_version at h
  split at h
  · cases h
  · split at h
    · rename_i g c hl
      cases hr : releaseLetterStrength c with
      | none => rw [hr] at h; cases h
      | some st =>
        rw [hr] at h
        injection h with h2
        subst h2
        refine ⟨st, rfl, ?_⟩
        unfold releaseLetterStrength at hr
        split_ifs at hr <;> (cases hr; exact ⟨_, rfl⟩)
    · cases h
      exact ⟨1, rfl, 'f', rfl⟩

/-- C5 counterexample: `"5.3"` is accepted by `parse_version`, but its
formatted form renders the unset fields as the placeholder x, giving
`"5.3.xfx"`, which `parse_version` rejects — so the re-comparison is a
fatal parse error (`none`), not `eq`. -/
theorem roundtrip_cex :
    parse_version "5.3" = some ⟨some 5, some 3, none, some 1, none⟩ ∧
    version_string ⟨some 5, some 3, none, some 1, none⟩ =
      some "5.3.xfx" ∧
    compare_versions "5.3.xfx" "5.3" = none := by
  refine ⟨rfl, rfl, rfl⟩

/-- C5 (amended): the parse→format round trip is semantic identity under
`compare` exactly for versions all of whose numeric components (major,
minor, patch, stage number) are present; a wildcard component renders as
the placeholder x and the formatted string then fails to parse. -/
theorem roundtrip_amended (v : String) (M m p st n : Nat)
    (hv : parse_version v = some ⟨some M, some m, some p, some st, some n⟩) :
    ∃ w, version_string ⟨some M, some m, some p, some st, some n⟩ =
        some w ∧
      compare_versions w v = some Ordering.eq := by
  obtain ⟨st', hst', c, hc⟩ := parse_stage_sound v _ hv
  have hst : st = st' := Option.some.inj (hst' : some st = some st')
  subst hst
  refine ⟨⟨natDigits M ++ '.' :: (natDigits m ++
      '.' :: (natDigits p ++ c :: natDigits n))⟩, ?_, ?_⟩
  · simp [version_string, hc, fieldChars]
  · unfold compare_versions
    rw [parse_roundtrip M m p st n c hc, hv]
    exact congrArg some (cmpT_refl _)

/-- Witness for C5 (amended) at a fully concrete version. -/
theorem roundtrip_amended_witness :
    ∃ w, version_string ⟨some 5, some 3, some 2, some 2, some 1⟩ =
        some w ∧
      compare_versions w "5.3.2p1" = some Ordering.eq :=
  roundtrip_amended "5.3.2p1" 5 3 2 2 1 (by decide)

